import Mathlib

/-!
Verification of the tag-indexed cache storage engine and the composite
handler of the repository (src/packages/nextjs-cache-handler/src/handlers):
a shallow embedding of the redis-strings Cache Entry Handler and of the
composite Handler, together with proofs of the specified properties.

The remote store is modelled as explicit state: association lists stand for
the payload string keyspace (each value carries its optional expire-at
timestamp in seconds) and for the three hash maps the handler uses (the
shared tag hash, the shared tag TTL hash, and the revalidated-tags marker
hash). Times are naturals in milliseconds, as produced by Date.now();
TTL-index values are in seconds, as in the source, and are compared against
milliseconds after multiplying by 1000, exactly as revalidateSharedKeys
does. Serialization is modelled by an inductive of stored values:
JSON.stringify of an entry round-trips through JSON.parse, a stored literal
that parses to null is distinguished, and a malformed payload makes
JSON.parse throw, modelled as the error case of Except.
-/

namespace NextjsCacheHandler

/-- Expiration policy attached to a cache entry: absolute expire-at Unix
timestamp in seconds. -/
structure Lifespan where
  expireAt : Nat
deriving DecidableEq, Repr

/-- A cache entry as handled by the engine: opaque serialized data, a tag
list (order kept, duplicates tolerated), a last-modified timestamp in
milliseconds and an optional lifespan. -/
structure CacheHandlerValue where
  data : String
  tags : List String
  lastModified : Nat
  lifespan : Option Lifespan
deriving DecidableEq, Repr

/-- A value stored at a payload key on the remote store. The set path only
ever stores serialized entries; other constructors model payloads found in
the store that were not produced by this handler: a literal that
deserializes to null, and a malformed payload on which deserialization
throws. -/
inductive StoredVal where
  | ser : CacheHandlerValue → StoredVal
  | nullLit : StoredVal
  | malformed : StoredVal
deriving DecidableEq, Repr

/-- The message of the SyntaxError thrown by JSON.parse on malformed data. -/
def jsonErrorMsg : String := "Unexpected token in JSON"

/-- JSON.parse of a stored payload, as used by the get path: a serialized
entry parses back to itself, a null literal parses to null, malformed data
throws. -/
def parseStored : StoredVal → Except String (Option CacheHandlerValue)
  | StoredVal.ser cv => Except.ok (some cv)
  | StoredVal.nullLit => Except.ok none
  | StoredVal.malformed => Except.error jsonErrorMsg

/-- The observable state of the remote store used by one redis-strings
handler: the payload string keyspace (value plus optional expire-at in
seconds), the shared tag hash (cache key to tag list), the shared tag TTL
hash (cache key to expire-at seconds), the revalidated-tags marker hash
(tag to timestamp in milliseconds), and the client readiness flag. -/
structure RedisState where
  strings : List (String × (StoredVal × Option Nat))
  sharedTags : List (String × List String)
  sharedTagsTtl : List (String × Nat)
  revalidatedTags : List (String × Nat)
  isReady : Bool
deriving DecidableEq, Repr

/-- The keyExpirationStrategy option of the handler. -/
inductive KeyExpirationStrategy where
  | EXAT : KeyExpirationStrategy
  | EXPIREAT : KeyExpirationStrategy
deriving DecidableEq, Repr

/-- Configuration of one redis-strings handler: the key namespace string
prepended to every payload key (keyPrefix in the source) and the chosen
expiration strategy. The names of the two shared hashes are fixed
separately in the state model, as they are distinct keys of the store. -/
structure HandlerOptions where
  pfx : String
  strat : KeyExpirationStrategy
deriving DecidableEq, Repr

/-- Field lookup in a hash modelled as an association list. -/
def lookupL {α : Type} (k : String) : List (String × α) → Option α
  | [] => none
  | p :: rest => if p.1 = k then some p.2 else lookupL k rest

/-- HSET of one field: overwrite the field when present, append it
otherwise. Also models SET on the payload keyspace, where the value
carries the expiry. -/
def hsetL {α : Type} (l : List (String × α)) (k : String) (v : α) : List (String × α) :=
  if l.any (fun p => decide (p.1 = k)) then
    l.map (fun p => if p.1 = k then (k, v) else p)
  else
    l ++ [(k, v)]

/-- HDEL of a batch of fields; also models UNLINK of a batch of payload
keys. Removing an absent field is a no-op. -/
def hdelL {α : Type} (l : List (String × α)) (ks : List String) : List (String × α) :=
  l.filter (fun p => decide (p.1 ∉ ks))

/-- EXPIREAT on a payload key: set the expire-at timestamp (seconds) of the
key when it exists, no-op otherwise. -/
def expireAtL (l : List (String × (StoredVal × Option Nat))) (k : String) (t : Nat) :
    List (String × (StoredVal × Option Nat)) :=
  l.map (fun p => if p.1 = k then (p.1, (p.2.1, some t)) else p)

/-- Whether a key with the given optional expire-at (seconds) is expired at
time now (milliseconds): the store drops the key once its expire-at is
reached. -/
def isExpired (exp : Option Nat) (now : Nat) : Bool :=
  match exp with
  | none => false
  | some t => decide (t * 1000 ≤ now)

/-- GET on a payload key at time now: an expired key reads as absent. -/
def getStringL (now : Nat) (l : List (String × (StoredVal × Option Nat))) (k : String) :
    Option StoredVal :=
  match lookupL k l with
  | none => none
  | some p => if isExpired p.2 now then none else some p.1

/-- Deduplication keeping first occurrences, as the JS Set constructor
does over the spread of the two tag lists. -/
def dedupAcc (seen : List String) : List String → List String
  | [] => []
  | x :: xs => if x ∈ seen then dedupAcc seen xs else x :: dedupAcc (x :: seen) xs

/-- The combined tag set of the get path: union of the entry tags and the
implicit tags, duplicates collapsed, first-occurrence order. -/
def dedupFirst (l : List String) : List String := dedupAcc [] l

/-- The error message assertClientIsReady throws when the client is not
ready. -/
def notReadyMsg : String := "Redis client is not ready yet or connection is lost. Keep trying..."

/-- The get operation of the redis-strings handler: assert readiness, read
the payload key, parse it, and when the combined tag set is non-empty
check the revalidated-tags markers; a marker strictly newer than the
entry's lastModified makes the entry stale: its payload key is unlinked
and the call returns empty. -/
def handlerGet (opt : HandlerOptions) (s : RedisState) (key : String)
    (implicitTags : List String) (now : Nat) :
    Except String (RedisState × Option CacheHandlerValue) :=
  if s.isReady then
    match getStringL now s.strings (opt.pfx ++ key) with
    | none => Except.ok (s, none)
    | some sv =>
      match parseStored sv with
      | Except.error e => Except.error e
      | Except.ok none => Except.ok (s, none)
      | Except.ok (some cv) =>
        let combined := dedupFirst (cv.tags ++ implicitTags)
        if combined.isEmpty then
          Except.ok (s, some cv)
        else
          let revalidationTimes := combined.map (fun t => lookupL t s.revalidatedTags)
          if revalidationTimes.any (fun o =>
              match o with
              | some m => decide (cv.lastModified < m)
              | none => false) then
            Except.ok ({ s with strings := hdelL s.strings [opt.pfx ++ key] }, none)
          else
            Except.ok (s, some cv)
  else
    Except.error notReadyMsg

/-- The set operation of the redis-strings handler: assert readiness, write
the serialized entry under the prefixed key with the configured expiration
strategy, write the tag-index field when the tag list is non-empty, and
write the TTL-index field when a lifespan is present. -/
def handlerSet (opt : HandlerOptions) (s : RedisState) (key : String)
    (cv : CacheHandlerValue) : Except String RedisState :=
  if s.isReady then
    let fullKey := opt.pfx ++ key
    let s₁ : RedisState :=
      match opt.strat with
      | KeyExpirationStrategy.EXAT =>
        { s with strings := hsetL s.strings fullKey (StoredVal.ser cv, cv.lifespan.map Lifespan.expireAt) }
      | KeyExpirationStrategy.EXPIREAT =>
        match cv.lifespan with
        | some ls =>
          { s with strings := expireAtL (hsetL s.strings fullKey (StoredVal.ser cv, none)) fullKey ls.expireAt }
        | none =>
          { s with strings := hsetL s.strings fullKey (StoredVal.ser cv, none) }
    let s₂ : RedisState :=
      if cv.tags.length > 0 then
        { s₁ with sharedTags := hsetL s₁.sharedTags key cv.tags }
      else s₁
    let s₃ : RedisState :=
      match cv.lifespan with
      | some ls => { s₂ with sharedTagsTtl := hsetL s₂.sharedTagsTtl key ls.expireAt }
      | none => s₂
    Except.ok s₃
  else
    Except.error notReadyMsg

/-- The tag sweep of revalidateTag: scan the whole shared tag hash, collect
every cache key whose tag list contains the tag, and when any matched,
unlink the prefixed payload keys and delete the matched fields from both
the tag hash and the TTL hash. -/
def revalidateTags (opt : HandlerOptions) (s : RedisState) (tag : String) : RedisState :=
  let matching := s.sharedTags.filter (fun p => decide (tag ∈ p.2))
  let tagsToDelete := matching.map Prod.fst
  let keysToDelete := matching.map (fun p => opt.pfx ++ p.1)
  if keysToDelete.isEmpty then s
  else
    { s with
      strings := hdelL s.strings keysToDelete
      sharedTags := hdelL s.sharedTags tagsToDelete
      sharedTagsTtl := hdelL s.sharedTagsTtl tagsToDelete }

/-- The TTL sweep of revalidateTag: scan the whole TTL hash, collect every
cache key whose expire-at (seconds, compared as milliseconds) is in the
past, and when any matched, unlink the prefixed payload keys and delete
the matched fields from both hashes. -/
def revalidateSharedKeys (opt : HandlerOptions) (s : RedisState) (now : Nat) : RedisState :=
  let expired := s.sharedTagsTtl.filter (fun p => decide (p.2 * 1000 < now))
  let tagsAndTtlToDelete := expired.map Prod.fst
  let keysToDelete := expired.map (fun p => opt.pfx ++ p.1)
  if tagsAndTtlToDelete.isEmpty then s
  else
    { s with
      strings := hdelL s.strings keysToDelete
      sharedTagsTtl := hdelL s.sharedTagsTtl tagsAndTtlToDelete
      sharedTags := hdelL s.sharedTags tagsAndTtlToDelete }

/-- The revalidateTag operation of the redis-strings handler: assert
readiness; when the external helper classifies the tag as implicit, write
the current time into the revalidated-tags marker hash; then run the tag
sweep and the TTL sweep. The two sweeps run concurrently in the source and
commute on the state; the embedding sequences the tag sweep first. -/
def handlerRevalidateTag (opt : HandlerOptions) (s : RedisState) (tag : String)
    (now : Nat) (isImplicit : Bool) : Except String RedisState :=
  if s.isReady then
    Except.ok (revalidateSharedKeys opt (revalidateTags opt
      (if isImplicit then { s with revalidatedTags := hsetL s.revalidatedTags tag now } else s)
      tag) now)
  else
    Except.error notReadyMsg

/-- The delete operation of the redis-strings handler: unlink the prefixed
payload key and delete the key's field from both shared hashes. The source
issues the three removals directly, with no readiness assertion. -/
def handlerDelete (opt : HandlerOptions) (s : RedisState) (key : String) :
    Except String RedisState :=
  Except.ok
    { s with
      strings := hdelL s.strings [opt.pfx ++ key]
      sharedTags := hdelL s.sharedTags [key]
      sharedTagsTtl := hdelL s.sharedTagsTtl [key] }

/-- The get loop of the composite handler over member get functions, also
counting how many members were consulted: members are queried in sequence
order and the loop returns at the first non-empty result. -/
def compositeGetAux {α : Type} (k : String) : List (String → Option α) → Option α × Nat
  | [] => (none, 0)
  | h :: hs =>
    match h k with
    | some v => (some v, 1)
    | none =>
      let r := compositeGetAux k hs
      (r.1, r.2 + 1)

/-- The result of the composite get. -/
def compositeGet {α : Type} (hs : List (String → Option α)) (k : String) : Option α :=
  (compositeGetAux k hs).1

/-- The member index the composite set writes to: the index the setStrategy
returns, when present and a valid index of the handlers array, and index 0
otherwise (absent strategy, negative index, or index past the end). -/
def compositeSetTarget (numHandlers : Nat) (strategy : Option (CacheHandlerValue → Int))
    (data : CacheHandlerValue) : Nat :=
  let index : Int :=
    match strategy with
    | some f => f data
    | none => 0
  if 0 ≤ index ∧ index < (numHandlers : Int) then index.toNat else 0

/-- The set operation of the composite handler over member states: apply
the member set of the one targeted member, leaving every other member
untouched. -/
def compositeSet {M : Type} [Inhabited M] (memberSet : M → String → CacheHandlerValue → M)
    (strategy : Option (CacheHandlerValue → Int)) (members : List M)
    (key : String) (data : CacheHandlerValue) : List M :=
  members.set (compositeSetTarget members.length strategy data)
    (memberSet (members.getD (compositeSetTarget members.length strategy data) default) key data)

/-- Looking up the field just written by HSET yields the written value. -/
theorem lookupL_map_update_self {α : Type} (k : String) (v : α) (l : List (String × α))
    (h : l.any (fun p => decide (p.1 = k)) = true) :
    lookupL k (l.map (fun p => if p.1 = k then (k, v) else p)) = some v := by
  induction l with
  | nil => simp at h
  | cons p l ih =>
    by_cases hp : p.1 = k
    · simp [lookupL, hp]
    · have h₂ : l.any (fun p => decide (p.1 = k)) = true := by simpa [hp] using h
      simp [lookupL, hp, ih h₂]

/-- Looking up the field just appended by HSET yields the written value. -/
theorem lookupL_append_self {α : Type} (k : String) (v : α) (l : List (String × α))
    (h : l.any (fun p => decide (p.1 = k)) = false) :
    lookupL k (l ++ [(k, v)]) = some v := by
  induction l with
  | nil => simp [lookupL]
  | cons p l ih =>
    have hp : p.1 ≠ k := by
      intro he
      rw [List.any_cons, he] at h
      simp at h
    have h₂ : l.any (fun q => decide (q.1 = k)) = false := by
      rw [List.any_cons] at h
      exact (Bool.or_eq_false_iff.mp h).2
    rw [List.cons_append, lookupL, if_neg hp]
    exact ih h₂

/-- HSET then lookup of the same field yields the written value. -/
theorem lookupL_hsetL_self {α : Type} (k : String) (v : α) (l : List (String × α)) :
    lookupL k (hsetL l k v) = some v := by
  unfold hsetL
  by_cases h : l.any (fun p => decide (p.1 = k)) = true
  · rw [if_pos h]; exact lookupL_map_update_self k v l h
  · rw [if_neg h]
    exact lookupL_append_self k v l (by rwa [Bool.not_eq_true] at h)

/-- The in-place field update of HSET leaves every other field unchanged. -/
theorem lookupL_map_update_ne {α : Type} (k k₂ : String) (v : α) (l : List (String × α))
    (h : k₂ ≠ k) :
    lookupL k₂ (l.map (fun p => if p.1 = k then (k, v) else p)) = lookupL k₂ l := by
  induction l with
  | nil => rfl
  | cons p l ih =>
    by_cases hp : p.1 = k
    · rw [List.map_cons, if_pos hp, lookupL, if_neg (Ne.symm h), lookupL,
        if_neg (hp ▸ Ne.symm h : ¬p.1 = k₂), ih]
    · by_cases hk : p.1 = k₂
      · rw [List.map_cons, if_neg hp, lookupL, if_pos hk, lookupL, if_pos hk]
      · rw [List.map_cons, if_neg hp, lookupL, if_neg hk, lookupL, if_neg hk, ih]

/-- Appending a fresh field leaves the lookup of every other field
unchanged. -/
theorem lookupL_append_ne {α : Type} (k k₂ : String) (v : α) (l : List (String × α))
    (h : k₂ ≠ k) : lookupL k₂ (l ++ [(k, v)]) = lookupL k₂ l := by
  induction l with
  | nil => simp [lookupL, Ne.symm h]
  | cons p l ih =>
    by_cases hk : p.1 = k₂
    · rw [List.cons_append, lookupL, if_pos hk, lookupL, if_pos hk]
    · rw [List.cons_append, lookupL, if_neg hk, lookupL, if_neg hk, ih]

/-- HSET leaves the lookup of every other field unchanged. -/
theorem lookupL_hsetL_ne {α : Type} (k k₂ : String) (v : α) (l : List (String × α))
    (h : k₂ ≠ k) : lookupL k₂ (hsetL l k v) = lookupL k₂ l := by
  unfold hsetL
  split
  · exact lookupL_map_update_ne k k₂ v l h
  · exact lookupL_append_ne k k₂ v l h

/-- Membership in the result of a batched HDEL. -/
theorem mem_hdelL {α : Type} (p : String × α) (l : List (String × α)) (ks : List String) :
    p ∈ hdelL l ks ↔ p ∈ l ∧ p.1 ∉ ks := by
  simp [hdelL, List.mem_filter]

/-- HDEL of a batch removes every listed field. -/
theorem lookupL_hdelL_of_mem {α : Type} (k : String) (l : List (String × α))
    (ks : List String) (h : k ∈ ks) : lookupL k (hdelL l ks) = none := by
  induction l with
  | nil => rfl
  | cons p l ih =>
    rw [hdelL, List.filter_cons]
    by_cases hp : p.1 ∈ ks
    · rw [if_neg (by simpa using hp)]
      exact ih
    · rw [if_pos (by simpa using hp)]
      have hne : p.1 ≠ k := fun he => hp (he ▸ h)
      rw [lookupL, if_neg hne]
      exact ih

/-- HDEL of a batch leaves every other field unchanged. -/
theorem lookupL_hdelL_of_not_mem {α : Type} (k : String) (l : List (String × α))
    (ks : List String) (h : k ∉ ks) : lookupL k (hdelL l ks) = lookupL k l := by
  induction l with
  | nil => rfl
  | cons p l ih =>
    rw [hdelL, List.filter_cons]
    by_cases hp : p.1 ∈ ks
    · rw [if_neg (by simpa using hp)]
      have hne : p.1 ≠ k := fun he => h (he ▸ hp)
      rw [lookupL, if_neg hne]
      exact ih
    · rw [if_pos (by simpa using hp)]
      by_cases hk : p.1 = k
      · rw [lookupL, if_pos hk, lookupL, if_pos hk]
      · rw [lookupL, if_neg hk, lookupL, if_neg hk]
        exact ih

/-- HDEL never makes an absent field present. -/
theorem lookupL_hdelL_none {α : Type} (k : String) (l : List (String × α))
    (ks : List String) (h : lookupL k l = none) : lookupL k (hdelL l ks) = none := by
  by_cases hk : k ∈ ks
  · exact lookupL_hdelL_of_mem k l ks hk
  · rw [lookupL_hdelL_of_not_mem k l ks hk]; exact h

/-- A successful lookup exhibits a member of the list. -/
theorem mem_of_lookupL {α : Type} (k : String) (v : α) (l : List (String × α))
    (h : lookupL k l = some v) : (k, v) ∈ l := by
  induction l with
  | nil => simp [lookupL] at h
  | cons p l ih =>
    by_cases hp : p.1 = k
    · simp only [lookupL, if_pos hp] at h
      have : p = (k, v) := by
        cases p
        simp only [Option.some.injEq] at h
        simp_all
      simp [this]
    · simp only [lookupL, if_neg hp] at h
      exact List.mem_cons_of_mem _ (ih h)

/-- After HSET of a field, the hash reports the field as present. -/
theorem hsetL_any_self {α : Type} (k : String) (v : α) (l : List (String × α)) :
    (hsetL l k v).any (fun p => decide (p.1 = k)) = true := by
  unfold hsetL
  split
  · rename_i h
    induction l with
    | nil => simp at h
    | cons p l ih =>
      by_cases hp : p.1 = k
      · simp [hp]
      · have h₂ : l.any (fun q => decide (q.1 = k)) = true := by simpa [hp] using h
        simp only [List.map_cons, List.any_cons, Bool.or_eq_true]
        exact Or.inr (by simpa using ih h₂)
  · simp

/-- Every entry of the hash carrying the field just HSET holds the written
value. -/
theorem hsetL_eq_of_fst {α : Type} (k : String) (v : α) (l : List (String × α)) :
    ∀ p ∈ hsetL l k v, p.1 = k → p = (k, v) := by
  intro p hp hk
  unfold hsetL at hp
  by_cases h : l.any (fun q => decide (q.1 = k)) = true
  · rw [if_pos h] at hp
    obtain ⟨q, _, hq⟩ := List.mem_map.mp hp
    by_cases hqk : q.1 = k
    · rw [if_pos hqk] at hq; exact hq.symm
    · rw [if_neg hqk] at hq; exact absurd (hq ▸ hk) hqk
  · rw [if_neg h] at hp
    rcases List.mem_append.mp hp with hmem | hmem
    · exfalso
      have := List.any_eq_false.mp (Bool.eq_false_iff.mpr h) p hmem
      simp [hk] at this
    · simpa using hmem

/-- Writing the same field twice with the same value is the same as writing
it once. -/
theorem hsetL_hsetL_self {α : Type} (k : String) (v : α) (l : List (String × α)) :
    hsetL (hsetL l k v) k v = hsetL l k v := by
  conv_lhs => rw [hsetL]
  rw [if_pos (hsetL_any_self k v l)]
  have : ∀ p ∈ hsetL l k v, (if p.1 = k then (k, v) else p) = p := by
    intro p hp
    by_cases hk : p.1 = k
    · rw [if_pos hk, hsetL_eq_of_fst k v l p hp hk]
    · rw [if_neg hk]
  rw [List.map_congr_left this]
  simp

/-- Membership in the deduplicated list with an accumulator of seen
elements. -/
theorem mem_dedupAcc (x : String) (seen l : List String) :
    x ∈ dedupAcc seen l ↔ x ∈ l ∧ x ∉ seen := by
  induction l generalizing seen with
  | nil => simp [dedupAcc]
  | cons y l ih =>
    by_cases hy : y ∈ seen
    · rw [dedupAcc, if_pos hy, ih]
      constructor
      · rintro ⟨h1, h2⟩; exact ⟨List.mem_cons_of_mem _ h1, h2⟩
      · rintro ⟨h1, h2⟩
        rcases List.mem_cons.mp h1 with rfl | h1
        · exact absurd hy h2
        · exact ⟨h1, h2⟩
    · rw [dedupAcc, if_neg hy]
      constructor
      · intro h
        rcases List.mem_cons.mp h with rfl | h
        · exact ⟨List.mem_cons_self _ _, hy⟩
        · have := (ih (y :: seen)).mp h
          exact ⟨List.mem_cons_of_mem _ this.1, fun hs => this.2 (List.mem_cons_of_mem _ hs)⟩
      · rintro ⟨h1, h2⟩
        rcases List.mem_cons.mp h1 with rfl | h1
        · exact List.mem_cons_self _ _
        · by_cases hxy : x = y
          · exact hxy ▸ List.mem_cons_self _ _
          · exact List.mem_cons_of_mem _ ((ih (y :: seen)).mpr
              ⟨h1, fun hs => (List.mem_cons.mp hs).elim hxy h2⟩)

/-- The combined tag set holds exactly the tags of the underlying lists. -/
theorem mem_dedupFirst (x : String) (l : List String) : x ∈ dedupFirst l ↔ x ∈ l := by
  simp [dedupFirst, mem_dedupAcc]

/-- The combined tag set is empty exactly when the underlying list is. -/
theorem dedupFirst_eq_nil (l : List String) : dedupFirst l = [] ↔ l = [] := by
  cases l with
  | nil => simp [dedupFirst, dedupAcc]
  | cons y l => simp [dedupFirst, dedupAcc]

/-- The staleness scan of the get path finds a marker exactly when some tag
of the combined set carries a marker strictly newer than the entry. -/
theorem staleScan_iff (combined : List String) (markers : List (String × Nat)) (lm : Nat) :
    ((combined.map (fun t => lookupL t markers)).any (fun o =>
        match o with
        | some m => decide (lm < m)
        | none => false) = true)
    ↔ ∃ t ∈ combined, ∃ m, lookupL t markers = some m ∧ lm < m := by
  induction combined with
  | nil => simp
  | cons t ts ih =>
    rw [List.map_cons, List.any_cons, Bool.or_eq_true, ih]
    constructor
    · rintro (h | h)
      · rcases hl : lookupL t markers with _ | m
        · rw [hl] at h; simp at h
        · rw [hl] at h
          exact ⟨t, List.mem_cons_self _ _, m, hl, of_decide_eq_true h⟩
      · obtain ⟨x, hx, hm⟩ := h
        exact ⟨x, List.mem_cons_of_mem _ hx, hm⟩
    · rintro ⟨x, hx, m, hm, hlt⟩
      rcases List.mem_cons.mp hx with rfl | hx
      · left
        rw [hm]
        simpa using hlt
      · right
        exact ⟨x, hx, m, hm, hlt⟩

/-- The tag sweep does not touch the client readiness flag. -/
theorem revalidateTags_isReady (opt : HandlerOptions) (s : RedisState) (tag : String) :
    (revalidateTags opt s tag).isReady = s.isReady := by
  simp only [revalidateTags]
  split <;> rfl

/-- The tag sweep does not touch the revalidated-tags marker hash. -/
theorem revalidateTags_revalidatedTags (opt : HandlerOptions) (s : RedisState) (tag : String) :
    (revalidateTags opt s tag).revalidatedTags = s.revalidatedTags := by
  simp only [revalidateTags]
  split <;> rfl

/-- The TTL sweep does not touch the client readiness flag. -/
theorem revalidateSharedKeys_isReady (opt : HandlerOptions) (s : RedisState) (now : Nat) :
    (revalidateSharedKeys opt s now).isReady = s.isReady := by
  simp only [revalidateSharedKeys]
  split <;> rfl

/-- The TTL sweep does not touch the revalidated-tags marker hash. -/
theorem revalidateSharedKeys_revalidatedTags (opt : HandlerOptions) (s : RedisState) (now : Nat) :
    (revalidateSharedKeys opt s now).revalidatedTags = s.revalidatedTags := by
  simp only [revalidateSharedKeys]
  split <;> rfl

/-- After the tag sweep, no remaining tag-index entry carries the swept
tag. -/
theorem revalidateTags_no_tag (opt : HandlerOptions) (s : RedisState) (tag : String) :
    ∀ p ∈ (revalidateTags opt s tag).sharedTags, tag ∉ p.2 := by
  intro p hp htag
  simp only [revalidateTags] at hp
  split at hp
  · rename_i hE
    have hfil : s.sharedTags.filter (fun q => decide (tag ∈ q.2)) = [] := by
      rcases hfe : s.sharedTags.filter (fun q => decide (tag ∈ q.2)) with _ | ⟨q, rest⟩
      · exact hfe
      · rw [hfe] at hE
        simp at hE
    have hmem : p ∈ s.sharedTags.filter (fun q => decide (tag ∈ q.2)) :=
      List.mem_filter.mpr ⟨hp, by simpa using htag⟩
    rw [hfil] at hmem
    simp at hmem
  · have h₂ := (mem_hdelL p s.sharedTags _).mp hp
    exact h₂.2 (List.mem_map.mpr ⟨p, List.mem_filter.mpr ⟨h₂.1, by simpa using htag⟩, rfl⟩)

/-- After the TTL sweep, no remaining TTL-index entry is expired. -/
theorem revalidateSharedKeys_ttl_fresh (opt : HandlerOptions) (s : RedisState) (now : Nat) :
    ∀ p ∈ (revalidateSharedKeys opt s now).sharedTagsTtl, ¬(p.2 * 1000 < now) := by
  intro p hp hlt
  simp only [revalidateSharedKeys] at hp
  split at hp
  · rename_i hE
    have hfil : s.sharedTagsTtl.filter (fun q => decide (q.2 * 1000 < now)) = [] := by
      rcases hfe : s.sharedTagsTtl.filter (fun q => decide (q.2 * 1000 < now)) with _ | ⟨q, rest⟩
      · exact hfe
      · rw [hfe] at hE
        simp at hE
    have hmem : p ∈ s.sharedTagsTtl.filter (fun q => decide (q.2 * 1000 < now)) :=
      List.mem_filter.mpr ⟨hp, by simpa using hlt⟩
    rw [hfil] at hmem
    simp at hmem
  · have h₂ := (mem_hdelL p s.sharedTagsTtl _).mp hp
    exact h₂.2 (List.mem_map.mpr ⟨p, List.mem_filter.mpr ⟨h₂.1, by simpa using hlt⟩, rfl⟩)

/-- The TTL sweep only removes tag-index entries. -/
theorem revalidateSharedKeys_sharedTags_sub (opt : HandlerOptions) (s : RedisState) (now : Nat)
    (p : String × List String) (hp : p ∈ (revalidateSharedKeys opt s now).sharedTags) :
    p ∈ s.sharedTags := by
  simp only [revalidateSharedKeys] at hp
  split at hp
  · exact hp
  · exact ((mem_hdelL p s.sharedTags _).mp hp).1

/-- The tag sweep is the identity when no tag-index entry carries the swept
tag. -/
theorem revalidateTags_eq_self (opt : HandlerOptions) (s : RedisState) (tag : String)
    (h : ∀ p ∈ s.sharedTags, tag ∉ p.2) : revalidateTags opt s tag = s := by
  have hfil : s.sharedTags.filter (fun q => decide (tag ∈ q.2)) = [] := by
    rw [List.filter_eq_nil_iff]
    intro p hp
    simpa using h p hp
  simp [revalidateTags, hfil]

/-- The TTL sweep is the identity when no TTL-index entry is expired. -/
theorem revalidateSharedKeys_eq_self (opt : HandlerOptions) (s : RedisState) (now : Nat)
    (h : ∀ p ∈ s.sharedTagsTtl, ¬(p.2 * 1000 < now)) : revalidateSharedKeys opt s now = s := by
  have hfil : s.sharedTagsTtl.filter (fun q => decide (q.2 * 1000 < now)) = [] := by
    rw [List.filter_eq_nil_iff]
    intro p hp
    simpa using h p hp
  simp [revalidateSharedKeys, hfil]

/-- With a ready client, a set call succeeds and produces the state with
the payload write (per strategy), the conditional tag-index write and the
conditional TTL-index write. -/
theorem handlerSet_eq (opt : HandlerOptions) (s : RedisState) (key : String)
    (cv : CacheHandlerValue) (hr : s.isReady = true) :
    handlerSet opt s key cv = Except.ok
      { strings :=
          (match opt.strat with
           | KeyExpirationStrategy.EXAT =>
             hsetL s.strings (opt.pfx ++ key) (StoredVal.ser cv, cv.lifespan.map Lifespan.expireAt)
           | KeyExpirationStrategy.EXPIREAT =>
             match cv.lifespan with
             | some ls =>
               expireAtL (hsetL s.strings (opt.pfx ++ key) (StoredVal.ser cv, none))
                 (opt.pfx ++ key) ls.expireAt
             | none => hsetL s.strings (opt.pfx ++ key) (StoredVal.ser cv, none))
        sharedTags :=
          (if cv.tags.length > 0 then hsetL s.sharedTags key cv.tags else s.sharedTags)
        sharedTagsTtl :=
          (match cv.lifespan with
           | some ls => hsetL s.sharedTagsTtl key ls.expireAt
           | none => s.sharedTagsTtl)
        revalidatedTags := s.revalidatedTags
        isReady := s.isReady } := by
  cases hstr : opt.strat <;> cases hlf : cv.lifespan <;> by_cases htags : cv.tags.length > 0 <;>
    simp [handlerSet, hr, hstr, hlf, htags]

/-- Default handler configuration: empty key namespace and the default
EXPIREAT expiration strategy. -/
def defOpt : HandlerOptions := { pfx := "", strat := KeyExpirationStrategy.EXPIREAT }

/-- An empty store with a ready client. -/
def emptyReady : RedisState :=
  { strings := [], sharedTags := [], sharedTagsTtl := [], revalidatedTags := [], isReady := true }

/-- An entry with a lifespan and an empty tag list. -/
def taglessEntry : CacheHandlerValue :=
  { data := "payload", tags := [], lastModified := 5, lifespan := some { expireAt := 100 } }

/-- The state produced by setting the tagless lifespan entry into the
empty store. -/
def taglessAfterSet : RedisState :=
  { strings := [(("k"), (StoredVal.ser taglessEntry, some 100))]
    sharedTags := []
    sharedTagsTtl := [(("k"), 100)]
    revalidatedTags := []
    isReady := true }

/-- C1 counterexample: set of an entry with a lifespan but an empty tag
list does write a TTL Index entry, so the claimed equivalence (TTL entry
iff lifespan AND non-empty tags) fails at this input: the tag list is
empty, yet the TTL Index maps the key to expireAt 100. -/
theorem c1_counterexample :
    handlerSet defOpt emptyReady ("k") taglessEntry = Except.ok taglessAfterSet := by
  rfl

/-- C1 (amended): on every successful set, a TTL Index entry for the key is
written if and only if the entry has a lifespan, regardless of the tag
list: with a lifespan the TTL hash becomes the one-field update mapping
the key to expireAt, and without one it is left unchanged. -/
theorem c1_ttl_written_iff_lifespan (opt : HandlerOptions) (s : RedisState) (key : String)
    (cv : CacheHandlerValue) (s₂ : RedisState)
    (h : handlerSet opt s key cv = Except.ok s₂) :
    (∀ ls, cv.lifespan = some ls → s₂.sharedTagsTtl = hsetL s.sharedTagsTtl key ls.expireAt)
    ∧ (cv.lifespan = none → s₂.sharedTagsTtl = s.sharedTagsTtl) := by
  by_cases hr : s.isReady = true
  · rw [handlerSet_eq opt s key cv hr, Except.ok.injEq] at h
    subst h
    constructor
    · intro ls hls
      simp [hls]
    · intro hls
      simp [hls]
  · rw [handlerSet, if_neg hr] at h
    exact Except.noConfusion h

/-- C1 witness: the amended theorem applied at the tagless lifespan entry
set into the empty ready store. -/
theorem c1_ttl_written_iff_lifespan_witness :
    (∀ ls, taglessEntry.lifespan = some ls →
      taglessAfterSet.sharedTagsTtl = hsetL emptyReady.sharedTagsTtl ("k") ls.expireAt)
    ∧ (taglessEntry.lifespan = none →
      taglessAfterSet.sharedTagsTtl = emptyReady.sharedTagsTtl) :=
  c1_ttl_written_iff_lifespan defOpt emptyReady ("k") taglessEntry taglessAfterSet (by rfl)

/-- A ready store holding a malformed payload under one key. -/
def malformedState : RedisState :=
  { strings := [(("k"), (StoredVal.malformed, none))]
    sharedTags := []
    sharedTagsTtl := []
    revalidatedTags := []
    isReady := true }

/-- C2 counterexample: get of a key whose non-empty stored payload fails to
deserialize propagates the deserialization error instead of returning
empty: JSON.parse throws and nothing in the get path catches it. -/
theorem c2_counterexample :
    handlerGet defOpt malformedState ("k") [] 0 = Except.error jsonErrorMsg := by
  rfl

/-- C2 (amended): with a ready client, get of a key whose stored payload
fails to deserialize raises the deserialization error to the caller
(the call rejects); only a payload that deserializes to a null value is
treated as a cache miss and returned as empty. -/
theorem c2_malformed_payload_raises (opt : HandlerOptions) (s : RedisState) (key : String)
    (implicitTags : List String) (now : Nat) (hr : s.isReady = true) :
    (getStringL now s.strings (opt.pfx ++ key) = some StoredVal.malformed →
      handlerGet opt s key implicitTags now = Except.error jsonErrorMsg)
    ∧ (getStringL now s.strings (opt.pfx ++ key) = some StoredVal.nullLit →
      handlerGet opt s key implicitTags now = Except.ok (s, none)) := by
  constructor
  · intro hm
    simp [handlerGet, hr, hm, parseStored]
  · intro hm
    simp [handlerGet, hr, hm, parseStored]

/-- C2 witness: the amended theorem applied at the ready store holding a
malformed payload. -/
theorem c2_malformed_payload_raises_witness :
    (getStringL 0 malformedState.strings (defOpt.pfx ++ "k") = some StoredVal.malformed →
      handlerGet defOpt malformedState ("k") [] 0 = Except.error jsonErrorMsg)
    ∧ (getStringL 0 malformedState.strings (defOpt.pfx ++ "k") = some StoredVal.nullLit →
      handlerGet defOpt malformedState ("k") [] 0 = Except.ok (malformedState, none)) :=
  c2_malformed_payload_raises defOpt malformedState ("k") [] 0 (by rfl)

/-- A populated store whose client reports not ready. -/
def notReadyState : RedisState :=
  { strings := [(("k"), (StoredVal.nullLit, none))]
    sharedTags := [(("k"), [("t")])]
    sharedTagsTtl := [(("k"), 7)]
    revalidatedTags := []
    isReady := false }

/-- C3 counterexample: with the client not ready, delete does not fail fast
with a store-not-ready error; it issues its removals and succeeds,
emptying the store. -/
theorem c3_counterexample :
    handlerDelete defOpt notReadyState ("k") = Except.ok
      { strings := [], sharedTags := [], sharedTagsTtl := [], revalidatedTags := [],
        isReady := false } := by
  rfl

/-- C3 (amended): when the client reports not ready, get, set and
revalidateTag fail fast with the store-not-ready error before touching the
store, but delete performs its three removals without any readiness
check. -/
theorem c3_ready_check_coverage (opt : HandlerOptions) (s : RedisState) (key tag : String)
    (cv : CacheHandlerValue) (implicitTags : List String) (now : Nat) (impl : Bool)
    (hr : s.isReady = false) :
    handlerGet opt s key implicitTags now = Except.error notReadyMsg
    ∧ handlerSet opt s key cv = Except.error notReadyMsg
    ∧ handlerRevalidateTag opt s tag now impl = Except.error notReadyMsg
    ∧ handlerDelete opt s key = Except.ok
        { s with
          strings := hdelL s.strings [opt.pfx ++ key]
          sharedTags := hdelL s.sharedTags [key]
          sharedTagsTtl := hdelL s.sharedTagsTtl [key] } := by
  refine ⟨?_, ?_, ?_, rfl⟩ <;> simp [handlerGet, handlerSet, handlerRevalidateTag, hr]

/-- C3 witness: the amended theorem applied at the populated not-ready
store. -/
theorem c3_ready_check_coverage_witness :
    handlerGet defOpt notReadyState ("k") [] 0 = Except.error notReadyMsg
    ∧ handlerSet defOpt notReadyState ("k") taglessEntry = Except.error notReadyMsg
    ∧ handlerRevalidateTag defOpt notReadyState ("t") 0 false = Except.error notReadyMsg
    ∧ handlerDelete defOpt notReadyState ("k") = Except.ok
        { notReadyState with
          strings := hdelL notReadyState.strings [defOpt.pfx ++ "k"]
          sharedTags := hdelL notReadyState.sharedTags [("k")]
          sharedTagsTtl := hdelL notReadyState.sharedTagsTtl [("k")] } :=
  c3_ready_check_coverage defOpt notReadyState ("k") ("t") taglessEntry [] 0 false (by rfl)

/-- The composite get returns empty exactly when every member misses. -/
theorem compositeGet_none_iff {α : Type} (hs : List (String → Option α)) (k : String) :
    compositeGet hs k = none ↔ ∀ h ∈ hs, h k = none := by
  induction hs with
  | nil => simp [compositeGet, compositeGetAux]
  | cons h hs ih =>
    rw [List.forall_mem_cons, ← ih]
    rcases hh : h k with _ | v
    · simp [compositeGet, compositeGetAux, hh]
    · simp [compositeGet, compositeGetAux, hh]

/-- The composite get loop stops at the first member that hits: it returns
that member's value having consulted exactly the members up to and
including it. -/
theorem compositeGetAux_first_hit {α : Type} (hs : List (String → Option α)) (k : String)
    (i : Nat) (hi : String → Option α) (v : α)
    (h1 : hs[i]? = some hi) (h2 : hi k = some v)
    (h3 : ∀ j, j < i → ∀ hj, hs[j]? = some hj → hj k = none) :
    compositeGetAux k hs = (some v, i + 1) := by
  induction hs generalizing i with
  | nil => simp at h1
  | cons h hs ih =>
    cases i with
    | zero =>
      rw [List.getElem?_cons_zero, Option.some.injEq] at h1
      subst h1
      simp [compositeGetAux, h2]
    | succ i =>
      have h0 : h k = none := h3 0 (Nat.succ_pos i) h List.getElem?_cons_zero
      have hrec := ih i (by simpa using h1)
        (fun j hj hj2 hjq => h3 (j + 1) (Nat.succ_lt_succ hj) hj2 (by simpa using hjq))
      simp [compositeGetAux, h0, hrec]

/-- C8: the composite get queries members in sequence order and returns the
first non-empty result having consulted only the members up to it, and it
returns empty exactly when every member returns empty. -/
theorem c8_composite_get_order {α : Type} (hs : List (String → Option α)) (k : String)
    (i : Nat) (hi : String → Option α) (v : α)
    (h1 : hs[i]? = some hi) (h2 : hi k = some v)
    (h3 : ∀ j, j < i → ∀ hj, hs[j]? = some hj → hj k = none) :
    (compositeGet hs k = some v ∧ (compositeGetAux k hs).2 = i + 1)
    ∧ (compositeGet hs k = none ↔ ∀ h ∈ hs, h k = none) := by
  have hfst := compositeGetAux_first_hit hs k i hi v h1 h2 h3
  exact ⟨⟨by simp [compositeGet, hfst], by simp [hfst]⟩, compositeGet_none_iff hs k⟩

/-- A concrete member sequence for the composite get: the first member
misses, the second and third hit. -/
def c8Handlers : List (String → Option Nat) :=
  [fun _ => none, fun _ => some 3, fun _ => some 5]

/-- C8 witness: the theorem applied at the concrete member sequence, where
the second member is the first hit and the third is never consulted. -/
theorem c8_composite_get_order_witness :
    (compositeGet c8Handlers ("k") = some 3 ∧ (compositeGetAux ("k") c8Handlers).2 = 1 + 1)
    ∧ (compositeGet c8Handlers ("k") = none ↔ ∀ h ∈ c8Handlers, h ("k") = none) := by
  refine c8_composite_get_order c8Handlers ("k") 1 (fun _ => some 3) 3 rfl rfl ?_
  intro j hj hjf hjq
  obtain rfl : j = 0 := Nat.lt_one_iff.mp hj
  have h0 : c8Handlers[0]? = some (fun _ => (none : Option Nat)) := rfl
  rw [h0, Option.some.injEq] at hjq
  rw [← hjq]

/-- The member index targeted by the composite set is always a valid index
of a non-empty member list. -/
theorem compositeSetTarget_lt (n : Nat) (strategy : Option (CacheHandlerValue → Int))
    (data : CacheHandlerValue) (hn : 1 ≤ n) : compositeSetTarget n strategy data < n := by
  cases strategy with
  | none =>
    simp only [compositeSetTarget]
    split
    · rename_i hc
      omega
    · omega
  | some f =>
    simp only [compositeSetTarget]
    split
    · rename_i hc
      omega
    · omega

/-- C9: the composite set writes the entry to exactly the member the
placement strategy selects, every other member is untouched, and the
target defaults to index 0 when the strategy is absent or returns an index
outside the member range. -/
theorem c9_composite_set_placement {M : Type} [Inhabited M]
    (memberSet : M → String → CacheHandlerValue → M)
    (strategy : Option (CacheHandlerValue → Int)) (members : List M)
    (key : String) (data : CacheHandlerValue) (hlen : 2 ≤ members.length) :
    ((compositeSet memberSet strategy members key data)[compositeSetTarget members.length strategy data]?
      = some (memberSet (members.getD (compositeSetTarget members.length strategy data) default) key data))
    ∧ (∀ j, j ≠ compositeSetTarget members.length strategy data →
        (compositeSet memberSet strategy members key data)[j]? = members[j]?)
    ∧ (strategy = none → compositeSetTarget members.length strategy data = 0)
    ∧ (∀ f, strategy = some f →
        ((f data < 0 ∨ (members.length : Int) ≤ f data) →
          compositeSetTarget members.length strategy data = 0)
        ∧ ((0 ≤ f data ∧ f data < (members.length : Int)) →
          compositeSetTarget members.length strategy data = (f data).toNat)) := by
  have hlt := compositeSetTarget_lt members.length strategy data (le_trans (by norm_num) hlen)
  refine ⟨?_, ?_, ?_, ?_⟩
  · simp only [compositeSet]
    exact List.getElem?_set_self hlt
  · intro j hj
    simp only [compositeSet]
    exact List.getElem?_set_ne (Ne.symm hj)
  · intro hnone
    subst hnone
    simp only [compositeSetTarget]
    split <;> rfl
  · intro f hf
    subst hf
    constructor
    · intro hout
      simp only [compositeSetTarget]
      split
      · rename_i hc
        omega
      · rfl
    · intro hin
      simp only [compositeSetTarget]
      split
      · rfl
      · rename_i hc
        exact absurd hin hc

/-- A concrete member-state list for the composite set: each member is the
optional entry it stores. -/
def c9Members : List (Option CacheHandlerValue) := [none, none]

/-- C9 witness: the theorem applied at two members with a strategy
selecting index 1; member 1 receives the entry and member 0 is
untouched. -/
theorem c9_composite_set_placement_witness :
    ((compositeSet (fun _ _ d => some d) (some (fun _ => 1)) c9Members ("k") taglessEntry)[compositeSetTarget c9Members.length (some (fun _ => 1)) taglessEntry]?
      = some (some taglessEntry))
    ∧ (∀ j, j ≠ compositeSetTarget c9Members.length (some (fun _ => 1)) taglessEntry →
        (compositeSet (fun _ _ d => some d) (some (fun _ => 1)) c9Members ("k") taglessEntry)[j]? = c9Members[j]?)
    ∧ ((some (fun _ => (1 : Int)) : Option (CacheHandlerValue → Int)) = none →
        compositeSetTarget c9Members.length (some (fun _ => 1)) taglessEntry = 0)
    ∧ (∀ f, (some (fun _ => (1 : Int)) : Option (CacheHandlerValue → Int)) = some f →
        ((f taglessEntry < 0 ∨ (c9Members.length : Int) ≤ f taglessEntry) →
          compositeSetTarget c9Members.length (some (fun _ => 1)) taglessEntry = 0)
        ∧ ((0 ≤ f taglessEntry ∧ f taglessEntry < (c9Members.length : Int)) →
          compositeSetTarget c9Members.length (some (fun _ => 1)) taglessEntry = (f taglessEntry).toNat)) :=
  c9_composite_set_placement (fun _ _ d => some d) (some (fun _ => 1)) c9Members ("k")
    taglessEntry (by rfl)

/-- EXPIREAT then lookup of the same key: the value is kept and the expiry
set. -/
theorem lookupL_expireAtL_self (l : List (String × (StoredVal × Option Nat))) (k : String)
    (t : Nat) :
    lookupL k (expireAtL l k t) = (lookupL k l).map (fun v => (v.1, some t)) := by
  induction l with
  | nil => rfl
  | cons p l ih =>
    by_cases hp : p.1 = k
    · simp [expireAtL, lookupL, hp]
    · simp only [expireAtL, List.map_cons, if_neg hp, lookupL]
      exact ih

/-- With a ready client, an unexpired serialized payload and a stale marker
on some combined tag, get unlinks the payload key and returns empty. -/
theorem handlerGet_stale_eq (opt : HandlerOptions) (s : RedisState) (key : String)
    (implicitTags : List String) (now : Nat) (cv : CacheHandlerValue) (exp : Option Nat)
    (hr : s.isReady = true)
    (hp : lookupL (opt.pfx ++ key) s.strings = some (StoredVal.ser cv, exp))
    (halive : isExpired exp now = false)
    (hstale : ∃ t ∈ cv.tags ++ implicitTags, ∃ m,
      lookupL t s.revalidatedTags = some m ∧ cv.lastModified < m) :
    handlerGet opt s key implicitTags now =
      Except.ok ({ s with strings := hdelL s.strings [opt.pfx ++ key] }, none) := by
  have hget : getStringL now s.strings (opt.pfx ++ key) = some (StoredVal.ser cv) := by
    simp [getStringL, hp, halive]
  have hne : cv.tags ++ implicitTags ≠ [] := by
    rintro hnil
    rw [hnil] at hstale
    obtain ⟨t, ht, _⟩ := hstale
    exact absurd ht (List.not_mem_nil t)
  have hcomb : (dedupFirst (cv.tags ++ implicitTags)).isEmpty = false := by
    rcases hd : dedupFirst (cv.tags ++ implicitTags) with _ | ⟨a, l⟩
    · exact absurd ((dedupFirst_eq_nil _).mp hd) hne
    · rfl
  have hany : ((dedupFirst (cv.tags ++ implicitTags)).map
      (fun t => lookupL t s.revalidatedTags)).any (fun o =>
        match o with
        | some m => decide (cv.lastModified < m)
        | none => false) = true := by
    rw [staleScan_iff]
    obtain ⟨t, ht, m, hm, hlt⟩ := hstale
    exact ⟨t, (mem_dedupFirst t _).mpr ht, m, hm, hlt⟩
  simp [handlerGet, hr, hget, parseStored, hcomb, hany]

/-- With a ready client, an unexpired serialized payload and no stale
marker on any combined tag, get returns the entry and leaves the store
untouched. -/
theorem handlerGet_fresh_eq (opt : HandlerOptions) (s : RedisState) (key : String)
    (implicitTags : List String) (now : Nat) (cv : CacheHandlerValue) (exp : Option Nat)
    (hr : s.isReady = true)
    (hp : lookupL (opt.pfx ++ key) s.strings = some (StoredVal.ser cv, exp))
    (halive : isExpired exp now = false)
    (hfresh : ∀ t ∈ cv.tags ++ implicitTags, ∀ m,
      lookupL t s.revalidatedTags = some m → m ≤ cv.lastModified) :
    handlerGet opt s key implicitTags now = Except.ok (s, some cv) := by
  have hget : getStringL now s.strings (opt.pfx ++ key) = some (StoredVal.ser cv) := by
    simp [getStringL, hp, halive]
  by_cases hnil : cv.tags ++ implicitTags = []
  · have hcomb : (dedupFirst (cv.tags ++ implicitTags)).isEmpty = true := by
      rw [(dedupFirst_eq_nil _).mpr hnil]
      rfl
    simp [handlerGet, hr, hget, parseStored, hcomb]
  · have hcomb : (dedupFirst (cv.tags ++ implicitTags)).isEmpty = false := by
      rcases hd : dedupFirst (cv.tags ++ implicitTags) with _ | ⟨a, l⟩
      · exact absurd ((dedupFirst_eq_nil _).mp hd) hnil
      · rfl
    have hany : ¬(((dedupFirst (cv.tags ++ implicitTags)).map
        (fun t => lookupL t s.revalidatedTags)).any (fun o =>
          match o with
          | some m => decide (cv.lastModified < m)
          | none => false) = true) := by
      intro hc
      obtain ⟨t, ht, m, hm, hlt⟩ := (staleScan_iff _ _ _).mp hc
      exact absurd hlt (Nat.not_lt.mpr (hfresh t ((mem_dedupFirst t _).mp ht) m hm))
    simp [handlerGet, hr, hget, parseStored, hcomb, hany]

/-- C4: on a get whose combined tag set (entry tags united with implicit
tags) is non-empty, a Revalidation Marker strictly newer than the entry's
lastModified on any combined tag makes get unlink the payload key and
return empty; with no such marker, get returns the entry. -/
theorem c4_marker_staleness (opt : HandlerOptions) (s : RedisState) (key : String)
    (implicitTags : List String) (now : Nat) (cv : CacheHandlerValue) (exp : Option Nat)
    (hr : s.isReady = true)
    (hp : lookupL (opt.pfx ++ key) s.strings = some (StoredVal.ser cv, exp))
    (halive : isExpired exp now = false)
    (hne : cv.tags ++ implicitTags ≠ []) :
    ((∃ t ∈ cv.tags ++ implicitTags, ∃ m,
        lookupL t s.revalidatedTags = some m ∧ cv.lastModified < m) →
      handlerGet opt s key implicitTags now =
        Except.ok ({ s with strings := hdelL s.strings [opt.pfx ++ key] }, none))
    ∧ ((∀ t ∈ cv.tags ++ implicitTags, ∀ m,
        lookupL t s.revalidatedTags = some m → m ≤ cv.lastModified) →
      handlerGet opt s key implicitTags now = Except.ok (s, some cv)) :=
  ⟨handlerGet_stale_eq opt s key implicitTags now cv exp hr hp halive,
   handlerGet_fresh_eq opt s key implicitTags now cv exp hr hp halive⟩

/-- An entry carrying one tag, no lifespan. -/
def staleEntry : CacheHandlerValue :=
  { data := "v", tags := [("t")], lastModified := 5, lifespan := none }

/-- A ready store holding the tagged entry together with a Revalidation
Marker newer than the entry. -/
def staleState : RedisState :=
  { strings := [(("k"), (StoredVal.ser staleEntry, none))]
    sharedTags := [(("k"), [("t")])]
    sharedTagsTtl := []
    revalidatedTags := [(("t"), 10)]
    isReady := true }

/-- C4 witness: the theorem applied at the marker-stale store. -/
theorem c4_marker_staleness_witness :
    ((∃ t ∈ staleEntry.tags ++ ([] : List String), ∃ m,
        lookupL t staleState.revalidatedTags = some m ∧ staleEntry.lastModified < m) →
      handlerGet defOpt staleState ("k") [] 0 =
        Except.ok ({ staleState with
          strings := hdelL staleState.strings [defOpt.pfx ++ "k"] }, none))
    ∧ ((∀ t ∈ staleEntry.tags ++ ([] : List String), ∀ m,
        lookupL t staleState.revalidatedTags = some m → m ≤ staleEntry.lastModified) →
      handlerGet defOpt staleState ("k") [] 0 = Except.ok (staleState, some staleEntry)) :=
  c4_marker_staleness defOpt staleState ("k") [] 0 staleEntry none (by rfl) (by rfl)
    (by rfl) (by decide)

/-- C10: when get finds the entry stale through a Revalidation Marker and
deletes it, only the payload key is removed: the Tag Index, the TTL Index
and the Revalidation Markers are left unchanged by the get call. -/
theorem c10_stale_delete_frame (opt : HandlerOptions) (s : RedisState) (key : String)
    (implicitTags : List String) (now : Nat) (cv : CacheHandlerValue) (exp : Option Nat)
    (hr : s.isReady = true)
    (hp : lookupL (opt.pfx ++ key) s.strings = some (StoredVal.ser cv, exp))
    (halive : isExpired exp now = false)
    (hstale : ∃ t ∈ cv.tags ++ implicitTags, ∃ m,
      lookupL t s.revalidatedTags = some m ∧ cv.lastModified < m) :
    ∃ s₂, handlerGet opt s key implicitTags now = Except.ok (s₂, none)
      ∧ s₂.strings = hdelL s.strings [opt.pfx ++ key]
      ∧ s₂.sharedTags = s.sharedTags
      ∧ s₂.sharedTagsTtl = s.sharedTagsTtl
      ∧ s₂.revalidatedTags = s.revalidatedTags
      ∧ s₂.isReady = s.isReady :=
  ⟨_, handlerGet_stale_eq opt s key implicitTags now cv exp hr hp halive hstale,
    rfl, rfl, rfl, rfl, rfl⟩

/-- C10 witness: the theorem applied at the marker-stale store. -/
theorem c10_stale_delete_frame_witness :
    ∃ s₂, handlerGet defOpt staleState ("k") [] 0 = Except.ok (s₂, none)
      ∧ s₂.strings = hdelL staleState.strings [defOpt.pfx ++ "k"]
      ∧ s₂.sharedTags = staleState.sharedTags
      ∧ s₂.sharedTagsTtl = staleState.sharedTagsTtl
      ∧ s₂.revalidatedTags = staleState.revalidatedTags
      ∧ s₂.isReady = staleState.isReady :=
  c10_stale_delete_frame defOpt staleState ("k") [] 0 staleEntry none (by rfl) (by rfl)
    (by rfl) (by decide)

/-- C6: a set immediately followed by a get of the same key returns exactly
the entry that was set, provided no combined tag carries a Revalidation
Marker newer than the entry's lastModified and the entry's lifespan has
not elapsed at the time of the get. -/
theorem c6_round_trip (opt : HandlerOptions) (s : RedisState) (key : String)
    (cv : CacheHandlerValue) (implicitTags : List String) (now : Nat) (s₂ : RedisState)
    (hr : s.isReady = true)
    (hset : handlerSet opt s key cv = Except.ok s₂)
    (hmark : ∀ t ∈ cv.tags ++ implicitTags, ∀ m,
      lookupL t s.revalidatedTags = some m → m ≤ cv.lastModified)
    (hlife : ∀ ls, cv.lifespan = some ls → now < ls.expireAt * 1000) :
    handlerGet opt s₂ key implicitTags now = Except.ok (s₂, some cv) := by
  rw [handlerSet_eq opt s key cv hr, Except.ok.injEq] at hset
  subst hset
  have halive : isExpired (cv.lifespan.map Lifespan.expireAt) now = false := by
    cases hlf : cv.lifespan with
    | none => rfl
    | some ls =>
      have hlt := hlife ls hlf
      simp only [Option.map_some', isExpired, decide_eq_false_iff_not]
      omega
  apply handlerGet_fresh_eq opt _ key implicitTags now cv (cv.lifespan.map Lifespan.expireAt)
  · exact hr
  · cases hstr : opt.strat with
    | EXAT =>
      simp only [hstr]
      exact lookupL_hsetL_self _ _ _
    | EXPIREAT =>
      cases hlf : cv.lifespan with
      | none =>
        simp only [hstr, hlf]
        exact lookupL_hsetL_self _ _ _
      | some ls =>
        simp only [hstr, hlf]
        rw [lookupL_expireAtL_self, lookupL_hsetL_self]
        rfl
  · exact halive
  · exact hmark

/-- An entry with one tag and a lifespan, used for the round trip. -/
def roundTripEntry : CacheHandlerValue :=
  { data := "v", tags := [("t")], lastModified := 5, lifespan := some { expireAt := 10 } }

/-- The state produced by setting the round-trip entry into the empty
ready store with the default configuration. -/
def roundTripAfter : RedisState :=
  { strings := [(("k"), (StoredVal.ser roundTripEntry, some 10))]
    sharedTags := [(("k"), [("t")])]
    sharedTagsTtl := [(("k"), 10)]
    revalidatedTags := []
    isReady := true }

/-- C6 witness: the theorem applied at the round-trip entry set into the
empty ready store and read back before its lifespan elapses. -/
theorem c6_round_trip_witness :
    handlerGet defOpt roundTripAfter ("k") [] 50 = Except.ok (roundTripAfter, some roundTripEntry) :=
  c6_round_trip defOpt emptyReady ("k") roundTripEntry [] 50 roundTripAfter (by rfl) (by rfl)
    (by
      intro t ht m hm
      simp [lookupL, emptyReady] at hm)
    (by
      intro ls hls
      rw [show roundTripEntry.lifespan = some { expireAt := 10 } from rfl,
        Option.some.injEq] at hls
      rw [← hls]
      decide)

/-- The TTL sweep never resurrects an absent TTL-index field. -/
theorem revalidateSharedKeys_ttl_none (opt : HandlerOptions) (s : RedisState) (now : Nat)
    (key : String) (h : lookupL key s.sharedTagsTtl = none) :
    lookupL key (revalidateSharedKeys opt s now).sharedTagsTtl = none := by
  simp only [revalidateSharedKeys]
  split
  · exact h
  · exact lookupL_hdelL_none key _ _ h

/-- The TTL sweep never resurrects an absent tag-index field. -/
theorem revalidateSharedKeys_tags_none (opt : HandlerOptions) (s : RedisState) (now : Nat)
    (key : String) (h : lookupL key s.sharedTags = none) :
    lookupL key (revalidateSharedKeys opt s now).sharedTags = none := by
  simp only [revalidateSharedKeys]
  split
  · exact h
  · exact lookupL_hdelL_none key _ _ h

/-- The TTL sweep never resurrects an absent payload key. -/
theorem revalidateSharedKeys_strings_none (opt : HandlerOptions) (s : RedisState) (now : Nat)
    (fullKey : String) (h : lookupL fullKey s.strings = none) :
    lookupL fullKey (revalidateSharedKeys opt s now).strings = none := by
  simp only [revalidateSharedKeys]
  split
  · exact h
  · exact lookupL_hdelL_none fullKey _ _ h

/-- The TTL sweep collects every expired key: its TTL-index field, its
tag-index field and its prefixed payload key are all removed. -/
theorem revalidateSharedKeys_collects (opt : HandlerOptions) (s : RedisState) (now : Nat)
    (key : String) (ttl : Nat)
    (h : lookupL key s.sharedTagsTtl = some ttl) (hexp : ttl * 1000 < now) :
    lookupL key (revalidateSharedKeys opt s now).sharedTagsTtl = none
    ∧ lookupL key (revalidateSharedKeys opt s now).sharedTags = none
    ∧ lookupL (opt.pfx ++ key) (revalidateSharedKeys opt s now).strings = none := by
  have hmemL : (key, ttl) ∈ s.sharedTagsTtl := mem_of_lookupL key ttl _ h
  have hmemF : (key, ttl) ∈ s.sharedTagsTtl.filter (fun q => decide (q.2 * 1000 < now)) :=
    List.mem_filter.mpr ⟨hmemL, by simpa using hexp⟩
  have hkey : key ∈ (s.sharedTagsTtl.filter (fun q => decide (q.2 * 1000 < now))).map Prod.fst :=
    List.mem_map.mpr ⟨(key, ttl), hmemF, rfl⟩
  have hfull : (opt.pfx ++ key) ∈
      (s.sharedTagsTtl.filter (fun q => decide (q.2 * 1000 < now))).map
        (fun p => opt.pfx ++ p.1) :=
    List.mem_map.mpr ⟨(key, ttl), hmemF, rfl⟩
  simp only [revalidateSharedKeys]
  split
  · rename_i hE
    exfalso
    rcases hfe : s.sharedTagsTtl.filter (fun q => decide (q.2 * 1000 < now)) with _ | ⟨q, rest⟩
    · rw [hfe] at hkey
      simp at hkey
    · rw [hfe] at hE
      simp at hE
  · exact ⟨lookupL_hdelL_of_mem _ _ _ hkey, lookupL_hdelL_of_mem _ _ _ hkey,
      lookupL_hdelL_of_mem _ _ _ hfull⟩

/-- When the tag sweep does not match a key, the key's TTL-index field is
untouched. -/
theorem revalidateTags_ttl_not_removed (opt : HandlerOptions) (s : RedisState) (tag : String)
    (key : String)
    (hmem : key ∉ (s.sharedTags.filter (fun q => decide (tag ∈ q.2))).map Prod.fst) :
    lookupL key (revalidateTags opt s tag).sharedTagsTtl = lookupL key s.sharedTagsTtl := by
  simp only [revalidateTags]
  split
  · rfl
  · exact lookupL_hdelL_of_not_mem _ _ _ hmem

/-- When the tag sweep matches a key, it removes the key's TTL-index field,
its tag-index field and its prefixed payload key. -/
theorem revalidateTags_removed (opt : HandlerOptions) (s : RedisState) (tag : String)
    (key : String)
    (hmem : key ∈ (s.sharedTags.filter (fun q => decide (tag ∈ q.2))).map Prod.fst) :
    lookupL key (revalidateTags opt s tag).sharedTagsTtl = none
    ∧ lookupL key (revalidateTags opt s tag).sharedTags = none
    ∧ lookupL (opt.pfx ++ key) (revalidateTags opt s tag).strings = none := by
  have hfull : (opt.pfx ++ key) ∈
      (s.sharedTags.filter (fun q => decide (tag ∈ q.2))).map (fun p => opt.pfx ++ p.1) := by
    obtain ⟨p, hp, he⟩ := List.mem_map.mp hmem
    exact List.mem_map.mpr ⟨p, hp, by rw [he]⟩
  simp only [revalidateTags]
  split
  · rename_i hE
    exfalso
    rcases hfe : s.sharedTags.filter (fun q => decide (tag ∈ q.2)) with _ | ⟨q, rest⟩
    · rw [hfe] at hmem
      simp at hmem
    · rw [hfe] at hE
      simp at hE
  · exact ⟨lookupL_hdelL_of_mem _ _ _ hmem, lookupL_hdelL_of_mem _ _ _ hmem,
      lookupL_hdelL_of_mem _ _ _ hfull⟩

/-- After the tag sweep followed by the TTL sweep, any key whose TTL-index
entry had already expired is gone from both indexes and from the payload
keyspace. -/
theorem sweeps_collect (opt : HandlerOptions) (s : RedisState) (tag : String) (now : Nat)
    (key : String) (ttl : Nat)
    (httl : lookupL key s.sharedTagsTtl = some ttl) (hexp : ttl * 1000 < now) :
    lookupL key (revalidateSharedKeys opt (revalidateTags opt s tag) now).sharedTagsTtl = none
    ∧ lookupL key (revalidateSharedKeys opt (revalidateTags opt s tag) now).sharedTags = none
    ∧ lookupL (opt.pfx ++ key)
        (revalidateSharedKeys opt (revalidateTags opt s tag) now).strings = none := by
  by_cases hmem : key ∈ (s.sharedTags.filter (fun q => decide (tag ∈ q.2))).map Prod.fst
  · obtain ⟨h1, h2, h3⟩ := revalidateTags_removed opt s tag key hmem
    exact ⟨revalidateSharedKeys_ttl_none opt _ now key h1,
      revalidateSharedKeys_tags_none opt _ now key h2,
      revalidateSharedKeys_strings_none opt _ now _ h3⟩
  · have hA : lookupL key (revalidateTags opt s tag).sharedTagsTtl = some ttl := by
      rw [revalidateTags_ttl_not_removed opt s tag key hmem]
      exact httl
    exact revalidateSharedKeys_collects opt (revalidateTags opt s tag) now key ttl hA hexp

/-- C5: any revalidateTag call, for any tag, removes the TTL-index entry,
the tag-index entry and the payload key of every cache key whose TTL-index
expiration lies in the past at the time of the call. -/
theorem c5_expired_key_collected (opt : HandlerOptions) (s : RedisState) (tag : String)
    (now : Nat) (impl : Bool) (key : String) (ttl : Nat)
    (hr : s.isReady = true)
    (httl : lookupL key s.sharedTagsTtl = some ttl)
    (hexp : ttl * 1000 < now) :
    ∃ s₂, handlerRevalidateTag opt s tag now impl = Except.ok s₂
      ∧ lookupL key s₂.sharedTagsTtl = none
      ∧ lookupL key s₂.sharedTags = none
      ∧ lookupL (opt.pfx ++ key) s₂.strings = none := by
  have httlM : lookupL key
      (if impl then { s with revalidatedTags := hsetL s.revalidatedTags tag now }
       else s).sharedTagsTtl = some ttl := by
    cases impl <;> exact httl
  obtain ⟨h1, h2, h3⟩ := sweeps_collect opt _ tag now key ttl httlM hexp
  exact ⟨_, by rw [handlerRevalidateTag, if_pos hr], h1, h2, h3⟩

/-- A ready store with one tagged key whose TTL-index entry has expired. -/
def sweepState : RedisState :=
  { strings := [(("k"), (StoredVal.nullLit, none))]
    sharedTags := [(("k"), [("t")])]
    sharedTagsTtl := [(("k"), 1)]
    revalidatedTags := []
    isReady := true }

/-- C5 witness: the theorem applied at the expired key, revalidating an
unrelated tag. -/
theorem c5_expired_key_collected_witness :
    ∃ s₂, handlerRevalidateTag defOpt sweepState ("u") 2000 false = Except.ok s₂
      ∧ lookupL ("k") s₂.sharedTagsTtl = none
      ∧ lookupL ("k") s₂.sharedTags = none
      ∧ lookupL (defOpt.pfx ++ "k") s₂.strings = none :=
  c5_expired_key_collected defOpt sweepState ("u") 2000 false ("k") 1 (by rfl) (by rfl)
    (by decide)

/-- Running the tag sweep again after both sweeps is the identity: the
first tag sweep removed every entry carrying the tag and the TTL sweep
only removed further entries. -/
theorem revalidateTags_post_sweeps (opt : HandlerOptions) (s : RedisState) (tag : String)
    (now : Nat) :
    revalidateTags opt (revalidateSharedKeys opt (revalidateTags opt s tag) now) tag
      = revalidateSharedKeys opt (revalidateTags opt s tag) now := by
  apply revalidateTags_eq_self
  intro p hp
  exact revalidateTags_no_tag opt s tag p (revalidateSharedKeys_sharedTags_sub opt _ now p hp)

/-- Running the TTL sweep again after both sweeps is the identity: every
expired TTL-index entry is already gone. -/
theorem revalidateSharedKeys_post_sweeps (opt : HandlerOptions) (s : RedisState) (tag : String)
    (now : Nat) :
    revalidateSharedKeys opt (revalidateSharedKeys opt (revalidateTags opt s tag) now) now
      = revalidateSharedKeys opt (revalidateTags opt s tag) now :=
  revalidateSharedKeys_eq_self opt _ now (revalidateSharedKeys_ttl_fresh opt _ now)

/-- C7: with no intervening writes, calling revalidateTag twice in
succession (modelled at the same call time) yields exactly the same store
state as calling it once: the marker write is idempotent and both sweeps
find nothing left to collect on the second call. -/
theorem c7_revalidate_idempotent (opt : HandlerOptions) (s : RedisState) (tag : String)
    (now : Nat) (impl : Bool) (hr : s.isReady = true) :
    (handlerRevalidateTag opt s tag now impl).bind
        (fun s₃ => handlerRevalidateTag opt s₃ tag now impl)
      = handlerRevalidateTag opt s tag now impl := by
  have hrun : handlerRevalidateTag opt s tag now impl
      = Except.ok (revalidateSharedKeys opt (revalidateTags opt
          (if impl then { s with revalidatedTags := hsetL s.revalidatedTags tag now } else s)
          tag) now) := by
    rw [handlerRevalidateTag, if_pos hr]
  rw [hrun]
  show handlerRevalidateTag opt _ tag now impl = _
  generalize hsM :
      (if impl then { s with revalidatedTags := hsetL s.revalidatedTags tag now } else s) = sM
  have hready₂ : (revalidateSharedKeys opt (revalidateTags opt sM tag) now).isReady = true := by
    rw [revalidateSharedKeys_isReady, revalidateTags_isReady, ← hsM]
    cases impl
    · exact hr
    · exact hr
  have hmark : impl = true → hsetL sM.revalidatedTags tag now = sM.revalidatedTags := by
    intro hi
    rw [← hsM, hi]
    exact hsetL_hsetL_self tag now s.revalidatedTags
  rw [handlerRevalidateTag, if_pos hready₂]
  have hbigM :
      (if impl then
        { revalidateSharedKeys opt (revalidateTags opt sM tag) now with
          revalidatedTags :=
            hsetL (revalidateSharedKeys opt (revalidateTags opt sM tag) now).revalidatedTags
              tag now }
       else revalidateSharedKeys opt (revalidateTags opt sM tag) now)
      = revalidateSharedKeys opt (revalidateTags opt sM tag) now := by
    cases impl with
    | false => rfl
    | true =>
      rw [if_pos rfl]
      have h₂ : hsetL (revalidateSharedKeys opt (revalidateTags opt sM tag) now).revalidatedTags
          tag now
          = (revalidateSharedKeys opt (revalidateTags opt sM tag) now).revalidatedTags := by
        rw [revalidateSharedKeys_revalidatedTags, revalidateTags_revalidatedTags]
        exact hmark rfl
      rw [h₂]
  rw [hbigM, revalidateTags_post_sweeps opt sM tag now,
    revalidateSharedKeys_post_sweeps opt sM tag now]

/-- C7 witness: the theorem applied at a ready store with one tagged key
and an implicit tag, at call time 2000. -/
theorem c7_revalidate_idempotent_witness :
    (handlerRevalidateTag defOpt sweepState ("t") 2000 true).bind
        (fun s₃ => handlerRevalidateTag defOpt s₃ ("t") 2000 true)
      = handlerRevalidateTag defOpt sweepState ("t") 2000 true :=
  c7_revalidate_idempotent defOpt sweepState ("t") 2000 true (by rfl)

end NextjsCacheHandler
